import Mathlib

/-!
# Verification of the `nb_quality_profile` profiling-and-aggregation engine

Shallow embedding of the notebook-profiling code
(`nb_quality_profile/notebook_profiler.py`, `nb_quality_profile/nb_visualiser.py`,
`nb_quality_profile/text_quality.py`) together with proofs of the stated
properties of that code.

External collaborators (the `radon` analyzer, the `readtime` estimator, the
`list_imports` parser, the filesystem) are modelled as oracle parameters;
Python string primitives (`strip`, `splitlines`, `textwrap.wrap`, ...) are
modelled faithfully on Lean strings, restricted to the ASCII-centred
whitespace set that the code actually meets.
-/

namespace NbQuality

/-- Characters treated as whitespace by Python's `str.strip` / `str.isspace`
(the ASCII whitespace characters plus the common one-byte Unicode ones;
exotic multi-byte Unicode spaces are not modelled). -/
def pyIsSpace (c : Char) : Bool :=
  c = ' ' || c = '\t' || c = '\n' || c = '\r' || c = '\x0b' || c = '\x0c' ||
  c = '\x1c' || c = '\x1d' || c = '\x1e' || c = '\x1f' || c = '\x85' || c = '\xa0'

/-- Python `str.strip()` on a list of characters. -/
def stripList (l : List Char) : List Char :=
  ((l.dropWhile pyIsSpace).reverse.dropWhile pyIsSpace).reverse

/-- Python `str.strip()`. -/
def pyStrip (s : String) : String :=
  String.mk (stripList s.data)

/-- Python `str.lstrip()`. -/
def pyLStrip (s : String) : String :=
  String.mk (s.data.dropWhile pyIsSpace)

/-- Line-break characters recognised by Python `str.splitlines`
(`'\r'` and the `"\r\n"` pair are handled separately by the splitter). -/
def pyIsLineBreak (c : Char) : Bool :=
  c = '\n' || c = '\x0b' || c = '\x0c' || c = '\x1c' || c = '\x1d' ||
  c = '\x1e' || c = '\x85' || c = '\u2028' || c = '\u2029'

/-- Worker for Python `str.splitlines`: `acc` holds the current (reversed)
line; a trailing line without a final break is still emitted. -/
def pySplitlinesList : List Char → List Char → List String
  | [], [] => []
  | [], acc => [String.mk acc.reverse]
  | '\r' :: '\n' :: rest, acc => String.mk acc.reverse :: pySplitlinesList rest []
  | c :: rest, acc =>
    if pyIsLineBreak c || c = '\r' then
      String.mk acc.reverse :: pySplitlinesList rest []
    else
      pySplitlinesList rest (c :: acc)

/-- Python `str.splitlines()`. -/
def pySplitlines (s : String) : List String :=
  pySplitlinesList s.data []

/-!
## Code Composition Analyzer: the tolerant line classifier

Embeds `_code_block_summarise` and `code_block_report` from
`notebook_profiler.py` (lines 316-339 and 433-459).
-/

/-- Python `s.startswith(p)` (for a single string argument). -/
def pyStartsWith (s p : String) : Bool :=
  p.data.isPrefixOf s.data

/-- `_code_block_summarise(lines, n_blank, n_comment, n_code)`: classify each
line as blank (empty after strip), single-line comment (stripped line starts
with `#`) or executable, accumulating the three counters. -/
def _code_block_summarise : List String → Nat → Nat → Nat → Nat × Nat × Nat
  | [], n_blank, n_comment, n_code => (n_blank, n_comment, n_code)
  | l :: rest, n_blank, n_comment, n_code =>
    if pyStrip l = "" then
      _code_block_summarise rest (n_blank + 1) n_comment n_code
    else if pyStartsWith (pyStrip l) "#" then
      _code_block_summarise rest n_blank (n_comment + 1) n_code
    else
      _code_block_summarise rest n_blank n_comment (n_code + 1)

/-- `code_block_report(c)`: strip the code string, split into lines, report
`(n_total_code_lines, n_blank_code_lines, n_single_line_comment_code_lines,
n_code_lines)`. -/
def code_block_report (c : String) : Nat × Nat × Nat × Nat :=
  let lines := pySplitlines (pyStrip c)
  let n_total_code_lines := lines.length
  let counts := _code_block_summarise lines 0 0 0
  (n_total_code_lines, counts.1, counts.2.1, counts.2.2)

/-- Each classified line increments exactly one counter, so the three final
counters sum to the line count plus the initial counters. -/
theorem code_block_summarise_sum (lines : List String) :
    ∀ nb nc ncd,
      (_code_block_summarise lines nb nc ncd).1 +
      (_code_block_summarise lines nb nc ncd).2.1 +
      (_code_block_summarise lines nb nc ncd).2.2 = lines.length + (nb + nc + ncd) := by
  induction lines with
  | nil => intro nb nc ncd; simp [_code_block_summarise]
  | cons l rest ih =>
    intro nb nc ncd
    simp only [_code_block_summarise]
    split_ifs <;> (rw [ih]; simp only [List.length_cons]; omega)

/-- C1: for every code string, `code_block_report` partitions the stripped
lines so that the reported total equals blank + comment + executable. -/
theorem code_block_report_partition (c : String) :
    (code_block_report c).1 =
      (code_block_report c).2.1 + (code_block_report c).2.2.1 +
      (code_block_report c).2.2.2 := by
  simp only [code_block_report]
  rw [code_block_summarise_sum]
  simp

/-!
## Code Composition Analyzer: sanitiser, strict analyzer, robust fallback

Embeds `sanitise_IPython_code`, `r_analyze`, `code_reading_time` and
`robust_code_cell_analyse` from `notebook_profiler.py`.  The `radon.raw.analyze`
collaborator is an oracle `String → Option RadonModule`; `none` models the
`ParseError`/exception it raises on code it cannot parse.
-/

/-- The fields of the `radon.raw.analyze` result that `r_analyze` consumes. -/
structure RadonModule where
  loc : Nat
  sloc : Nat
  comments : Nat
  blank : Nat
  deriving Repr, DecidableEq

/-- `sanitise_IPython_code(c)`: comment out magic and shell commands by
prefixing `#` to every line whose left-stripped text starts with `%` or `!`. -/
def sanitise_IPython_code (c : String) : String :=
  String.intercalate "\n"
    ((pySplitlines c).map (fun r =>
      if pyStartsWith (pyLStrip r) "%" || pyStartsWith (pyLStrip r) "!" then
        "#" ++ r
      else r))

/-- `r_analyze(c)`: strict analysis of a stripped code string via the `radon`
oracle, reporting `(loc, blank, comments, sloc)`; `none` is a parse failure. -/
def r_analyze (analyze : String → Option RadonModule) (c : String) :
    Option (Nat × Nat × Nat × Nat) :=
  (analyze (pyStrip c)).map (fun r => (r.loc, r.blank, r.comments, r.sloc))

/-- `CODE_LINE_READING_TIME`: seconds to read one code line. -/
def CODE_LINE_READING_TIME : Nat := 1

/-- `code_reading_time(n_code_lines, n_single_line_comment_code_lines,
line_time)`. -/
def code_reading_time
    (n_code_lines n_single_line_comment_code_lines line_time : Nat) : Nat :=
  line_time * (n_code_lines + n_single_line_comment_code_lines)

/-- Python `math.ceil(n / 60)` for a natural number of seconds. -/
def ceilDiv60 (n : Nat) : Nat :=
  (⌈(n : ℚ) / 60⌉).toNat

/-- The `dict` returned by `robust_code_cell_analyse`. -/
structure CodeCellReport where
  n_total_code_lines : Nat
  n_blank_code_lines : Nat
  n_single_line_comment_code_lines : Nat
  n_code_lines : Nat
  n_screen_lines : Nat
  reading_time_s : Nat
  reading_time_mins : Nat
  deriving Repr, DecidableEq

/-- The four raw counters of a `CodeCellReport`, in the tuple order used by
the two classifiers. -/
def CodeCellReport.counts (r : CodeCellReport) : Nat × Nat × Nat × Nat :=
  (r.n_total_code_lines, r.n_blank_code_lines,
   r.n_single_line_comment_code_lines, r.n_code_lines)

/-- Assembling the tail of `robust_code_cell_analyse`: wrap a classifier
response tuple into the returned `dict`, adding the reading-time fields. -/
def codeCellResponse (response : Nat × Nat × Nat × Nat) : CodeCellReport :=
  let rt := code_reading_time response.2.2.2 response.2.2.1 CODE_LINE_READING_TIME
  { n_total_code_lines := response.1
    n_blank_code_lines := response.2.1
    n_single_line_comment_code_lines := response.2.2.1
    n_code_lines := response.2.2.2
    n_screen_lines := response.1
    reading_time_s := rt
    reading_time_mins := ceilDiv60 rt }

/-- `robust_code_cell_analyse(c, parser)`: a cell starting with `%%` is routed
to the tolerant classifier; otherwise, with `parser == 'radon'`, the sanitised
string goes to the strict analyzer, any failure of which falls back to the
tolerant classifier. -/
def robust_code_cell_analyse (analyze : String → Option RadonModule)
    (c : String) (parserArg : String) : CodeCellReport :=
  let parserSel := if pyStartsWith c "%%" then "local" else parserArg
  let response :=
    if parserSel = "radon" then
      match r_analyze analyze (sanitise_IPython_code c) with
      | some r => r
      | none => code_block_report c
    else
      code_block_report c
  codeCellResponse response

/-- C2: a `%%` cell is routed only to the tolerant classifier (the strict
oracle is never consulted); otherwise the strict analyzer is attempted on the
sanitised string and any failure falls back to the tolerant classifier, so the
result always comes from one of the two classifiers and no parse failure is
surfaced. -/
theorem robust_code_cell_analyse_routing
    (analyze analyze' : String → Option RadonModule) (c : String) :
    (pyStartsWith c "%%" = true →
      robust_code_cell_analyse analyze c "radon" =
        robust_code_cell_analyse analyze' c "radon" ∧
      (robust_code_cell_analyse analyze c "radon").counts = code_block_report c) ∧
    (pyStartsWith c "%%" = false →
      (robust_code_cell_analyse analyze c "radon").counts =
        (match r_analyze analyze (sanitise_IPython_code c) with
         | some r => r
         | none => code_block_report c)) ∧
    ((robust_code_cell_analyse analyze c "radon").counts = code_block_report c ∨
      ∃ r, r_analyze analyze (sanitise_IPython_code c) = some r ∧
        (robust_code_cell_analyse analyze c "radon").counts = r) := by
  have hcounts : ∀ r, (codeCellResponse r).counts = r := fun r => rfl
  have hmagic : ∀ a, pyStartsWith c "%%" = true →
      robust_code_cell_analyse a c "radon" = codeCellResponse (code_block_report c) := by
    intro a h
    simp only [robust_code_cell_analyse, h, if_true]
    rw [if_neg (by decide : ¬ ("local" : String) = "radon")]
  have hplain : pyStartsWith c "%%" = false →
      robust_code_cell_analyse analyze c "radon" =
        codeCellResponse
          (match r_analyze analyze (sanitise_IPython_code c) with
           | some r => r
           | none => code_block_report c) := by
    intro h
    simp only [robust_code_cell_analyse, h, Bool.false_eq_true, if_false, if_true]
  refine ⟨fun h => ⟨(hmagic analyze h).trans (hmagic analyze' h).symm,
    by rw [hmagic analyze h, hcounts]⟩,
    fun h => by rw [hplain h, hcounts], ?_⟩
  by_cases h : pyStartsWith c "%%"
  · exact Or.inl (by rw [hmagic analyze h, hcounts])
  · rw [hplain (by simpa using h), hcounts]
    rcases hr : r_analyze analyze (sanitise_IPython_code c) with _ | r
    · exact Or.inl rfl
    · exact Or.inr ⟨r, rfl, rfl⟩

/-- Witness for C2 at a concrete `%%` cell and a concrete plain cell. -/
theorem robust_code_cell_analyse_routing_witness :
    robust_code_cell_analyse (fun _ => none) "%%sql\nSELECT * FROM t" "radon" =
      robust_code_cell_analyse (fun _ => some ⟨9, 9, 9, 9⟩)
        "%%sql\nSELECT * FROM t" "radon" ∧
    (robust_code_cell_analyse (fun _ => none) "import pandas\n!ls" "radon").counts =
      code_block_report "import pandas\n!ls" := by
  refine ⟨((robust_code_cell_analyse_routing (fun _ => none)
      (fun _ => some ⟨9, 9, 9, 9⟩) "%%sql\nSELECT * FROM t").1 (by decide)).1, ?_⟩
  have h := (robust_code_cell_analyse_routing (fun _ => none)
      (fun _ => none) "import pandas\n!ls").2.1 (by decide)
  simpa [r_analyze] using h

/-!
## Reading-time conversion

Embeds `md_readtime` from `text_quality.py`; the external
`readtime.of_markdown(...).delta.total_seconds()` collaborator is the
oracle `readtimeOf`, and the continuous seconds value is modelled in `ℚ`.
-/

/-- `md_readtime(md, ..., rounding_override, rounded_minutes)`: reading time
in seconds from the `readtime` oracle, converted to whole minutes by
`math.ceil(rt/60)` exactly when `rounded_minutes` is set and
`rounding_override` is not. -/
def md_readtime (readtimeOf : String → ℚ) (md : String)
    (rounding_override rounded_minutes : Bool) : ℚ :=
  let rt := readtimeOf md
  if !rounding_override && rounded_minutes then ((⌈rt / 60⌉ : ℤ) : ℚ) else rt

/-- C3: seconds-to-minutes conversion is `ceil(s/60)` — rounding up, never
down — both in `md_readtime` (with `rounded_minutes` on and
`rounding_override` off) and in `robust_code_cell_analyse`'s
`reading_time_mins`; `s = 0` gives `0` minutes and `s = 1` gives `1`. -/
theorem reading_time_minutes_ceil
    (readtimeOf : String → ℚ) (md : String) (h : 0 ≤ readtimeOf md)
    (analyze : String → Option RadonModule) (c : String) :
    md_readtime readtimeOf md false true = ((⌈readtimeOf md / 60⌉ : ℤ) : ℚ) ∧
    readtimeOf md / 60 ≤ md_readtime readtimeOf md false true ∧
    ((robust_code_cell_analyse analyze c "radon").reading_time_mins : ℚ) =
      ((⌈((robust_code_cell_analyse analyze c "radon").reading_time_s : ℚ) / 60⌉ : ℤ) : ℚ) ∧
    md_readtime (fun _ => 0) "" false true = 0 ∧
    md_readtime (fun _ => 1) "" false true = 1 := by
  refine ⟨by simp [md_readtime], ?_, ?_, ?_, ?_⟩
  · simp only [md_readtime, Bool.not_false, Bool.true_and, if_pos]
    exact Int.le_ceil _
  · have hmins : (robust_code_cell_analyse analyze c "radon").reading_time_mins =
        ceilDiv60 (robust_code_cell_analyse analyze c "radon").reading_time_s := rfl
    rw [hmins, ceilDiv60]
    have hnn : (0 : ℤ) ≤ ⌈((robust_code_cell_analyse analyze c "radon").reading_time_s : ℚ) / 60⌉ := by
      apply Int.ceil_nonneg
      positivity
    exact_mod_cast congrArg (Int.cast : ℤ → ℚ) (Int.toNat_of_nonneg hnn)
  · simp [md_readtime]
  · simp only [md_readtime, Bool.not_false, Bool.true_and, if_pos]
    rw [show ((1 : ℚ)) = (((1 : ℤ) : ℚ)) from by norm_num]
    norm_num
    rw [Int.ceil_eq_iff]
    norm_num

/-- Witness for C3 at 61 seconds of markdown reading time and a concrete
two-line code cell. -/
theorem reading_time_minutes_ceil_witness :
    md_readtime (fun _ => (61 : ℚ)) "x" false true = ((⌈(61 : ℚ) / 60⌉ : ℤ) : ℚ) ∧
    (61 : ℚ) / 60 ≤ md_readtime (fun _ => (61 : ℚ)) "x" false true ∧
    ((robust_code_cell_analyse (fun _ => none) "a = 1\nb = 2" "radon").reading_time_mins : ℚ) =
      ((⌈((robust_code_cell_analyse (fun _ => none) "a = 1\nb = 2" "radon").reading_time_s : ℚ) / 60⌉ : ℤ) : ℚ) ∧
    md_readtime (fun _ => 0) "" false true = 0 ∧
    md_readtime (fun _ => 1) "" false true = 1 :=
  reading_time_minutes_ceil (fun _ => (61 : ℚ)) "x" (by norm_num)
    (fun _ => none) "a = 1\nb = 2"

/-!
## Text-Flow Counter

The two `_count_screen_lines` variants (`nb_visualiser.py` lines 131-139,
splitting on `'\n'`; `notebook_profiler.py` lines 265-273, splitting on
`'\n\n'`) both wrap each split segment with `textwrap.wrap(l, width)` and
count the wrapped fragments.  `textwrap.wrap` with its default options is
modelled faithfully below: whitespace munging (tab expansion, newline
translation), the default `wordsep_re` chunker (whitespace runs, em-dashes,
hyphenated words) and the greedy line filler with `drop_whitespace`,
`break_long_words` and `break_on_hyphens`.  Word characters are the ASCII
ones.
-/

/-- The characters of `textwrap`'s `_whitespace` string (`'\t\n\x0b\x0c\r '`). -/
def twIsWS (c : Char) : Bool :=
  c = '\t' || c = '\n' || c = '\x0b' || c = '\x0c' || c = '\r' || c = ' '

/-- Python `str.expandtabs(8)`: pad each tab to the next multiple of 8,
resetting the column on `'\n'` and `'\r'`. -/
def expandTabsAux : List Char → Nat → List Char
  | [], _ => []
  | '\t' :: rest, col =>
    List.replicate (8 - col % 8) ' ' ++ expandTabsAux rest (col + (8 - col % 8))
  | c :: rest, col =>
    if c = '\n' || c = '\r' then c :: expandTabsAux rest 0
    else c :: expandTabsAux rest (col + 1)

/-- `TextWrapper._munge_whitespace`: expand tabs, then translate each
`_whitespace` character to a plain space. -/
def _munge_whitespace (text : List Char) : List Char :=
  (expandTabsAux text 0).map (fun c => if twIsWS c then ' ' else c)

/-- The regex class `\w` (ASCII). -/
def isWordChar (c : Char) : Bool :=
  c.isAlphanum || c = '_'

/-- The regex class `[^\d\W]` (a word character that is not a digit). -/
def isRegexLetter (c : Char) : Bool :=
  isWordChar c && !c.isDigit

/-- The `word_punct` class `[\w!"\'&.,?]` of `wordsep_re`. -/
def isWordPunct (c : Char) : Bool :=
  isWordChar c || c = '!' || c = '"' || c = '\'' || c = '&' || c = '.' ||
  c = ',' || c = '?'

/-- Length of the leading run of `'-'` characters. -/
def dashRunLen : List Char → Nat
  | '-' :: rest => dashRunLen rest + 1
  | _ => 0

/-- The `(?=-{2,}\w)` lookahead of `wordsep_re`: two or more dashes followed
by a word character. -/
def isEmDashAhead (rest : List Char) : Bool :=
  2 ≤ dashRunLen rest &&
    (match rest.drop (dashRunLen rest) with
     | w :: _ => isWordChar w
     | [] => false)

/-- The `(?= letter -? letter)` lookahead of the hyphenated-word branch. -/
def hyphenLookahead (rest : List Char) : Bool :=
  match rest with
  | a :: rest2 =>
    isRegexLetter a &&
      (match rest2 with
       | b :: rest3 =>
         isRegexLetter b ||
           (b = '-' && (match rest3 with | z :: _ => isRegexLetter z | [] => false))
       | [] => false)
  | [] => false

/-- The `(?<= letter letter -)` / `(?<= letter - letter -)` lookbehind of the
hyphenated-word branch; the argument lists the characters before the current
position, most recent first (its head is the just-consumed dash). -/
def hyphenLookbehind (revCtx : List Char) : Bool :=
  match revCtx with
  | _ :: x :: y :: rest =>
    (isRegexLetter x && isRegexLetter y) ||
      (isRegexLetter x && y = '-' &&
        (match rest with | z :: _ => isRegexLetter z | [] => false))
  | _ => false

/-- The non-greedy word branch of `wordsep_re`: starting from the consumed
(reversed) word characters `acc` and the (reversed) context `pre` before the
word, extend the word one character at a time until the hyphenated-word,
end-of-word or em-dash-ahead terminator applies; returns the matched chunk
and the remaining text. -/
def wordScan (pre : List Char) : List Char → List Char → List Char × List Char
  | acc, [] => (acc.reverse, [])
  | acc, c :: rest =>
    if twIsWS c then (acc.reverse, c :: rest)
    else if c = '-' && hyphenLookbehind ('-' :: acc ++ pre) && hyphenLookahead rest then
      (acc.reverse ++ ['-'], rest)
    else if (match acc with | a :: _ => isWordPunct a | [] => false) &&
            isEmDashAhead (c :: rest) then
      (acc.reverse, c :: rest)
    else wordScan pre (c :: acc) rest

/-- The matched remainder of `wordScan` is a suffix of the input. -/
theorem wordScan_snd_length_le (pre : List Char) :
    ∀ acc rest, (wordScan pre acc rest).2.length ≤ rest.length := by
  intro acc rest
  induction rest generalizing acc with
  | nil => simp [wordScan]
  | cons c rest ih =>
    simp only [wordScan]
    split_ifs
    · simp
    · simpa using Nat.le_succ_of_le (Nat.le_refl _)
    · simp
    · exact Nat.le_succ_of_le (ih _)

/-- `TextWrapper._split` with the default `wordsep_re`: cut the munged text
into whitespace runs, em-dash runs and (possibly hyphenated) words; `pre`
lists the characters already consumed, most recent first.  The fuel argument
only bounds the recursion depth; every step consumes at least one character,
so `scanChunks` supplies enough. -/
def scanChunksF : Nat → List Char → List Char → List String
  | 0, _, _ => []
  | _ + 1, _, [] => []
  | fuel + 1, pre, c :: rest =>
    if twIsWS c then
      String.mk ((c :: rest).takeWhile twIsWS) ::
        scanChunksF fuel (((c :: rest).takeWhile twIsWS).reverse ++ pre)
          ((c :: rest).dropWhile twIsWS)
    else if (match pre with | p :: _ => isWordPunct p | [] => false) &&
            isEmDashAhead (c :: rest) then
      String.mk ((c :: rest).take (dashRunLen (c :: rest))) ::
        scanChunksF fuel (((c :: rest).take (dashRunLen (c :: rest))).reverse ++ pre)
          ((c :: rest).drop (dashRunLen (c :: rest)))
    else
      String.mk (wordScan pre [c] rest).1 ::
        scanChunksF fuel ((wordScan pre [c] rest).1.reverse ++ pre)
          (wordScan pre [c] rest).2

/-- `TextWrapper._split`, with fuel adequate for the text length. -/
def scanChunks (pre : List Char) (text : List Char) : List String :=
  scanChunksF (text.length + 1) pre text

/-- Python `str.rfind('-', 0, bound)` on a character list, as an optional
index. -/
def rfindDash (l : List Char) (bound : Nat) : Option Nat :=
  ((l.take bound).reverse.findIdx? (· = '-')).map
    (fun j => (l.take bound).length - 1 - j)

/-- `TextWrapper._handle_long_word` (defaults: `break_long_words` and
`break_on_hyphens` both set): break the head chunk to fill the line,
preferring a break after the last hyphen that has a non-hyphen before it.
Returns the updated current line and chunk list. -/
def _handle_long_word (width curLen : Nat) (cur : List String)
    (chunk : List Char) (rest : List String) : List String × List String :=
  let space_left := if width < 1 then 1 else width - curLen
  let e :=
    if chunk.length > space_left then
      match rfindDash chunk space_left with
      | some hy =>
        if 0 < hy ∧ (chunk.take hy).any (fun c => c ≠ '-') then hy + 1
        else space_left
      | none => space_left
    else space_left
  (cur ++ [String.mk (chunk.take e)], String.mk (chunk.drop e) :: rest)

/-- The inner fill loop of `TextWrapper._wrap_chunks`: move chunks onto the
current line while they fit within `width`. -/
def lineFill (width : Nat) : Nat → List String → List String →
    List String × Nat × List String
  | curLen, cur, [] => (cur, curLen, [])
  | curLen, cur, ch :: rest =>
    if curLen + ch.length ≤ width then
      lineFill width (curLen + ch.length) (cur ++ [ch]) rest
    else
      (cur, curLen, ch :: rest)

/-- One iteration of the outer loop of `TextWrapper._wrap_chunks` on a
chunk list (already past the leading-whitespace drop): fill the current line,
break a long head chunk, drop a trailing whitespace chunk, and return the
remaining chunks together with the emitted line, if any. -/
def wrapIter (width : Nat) (chunks0 : List String) : List String × Option String :=
  let filled := lineFill width 0 [] chunks0
  let afterLong :=
    match filled.2.2 with
    | [] => (filled.1, filled.2.2)
    | r :: rs =>
      if r.length > width then
        _handle_long_word width filled.2.1 filled.1 r.data rs
      else (filled.1, filled.2.2)
  let cur :=
    match afterLong.1.getLast? with
    | some last => if pyStrip last = "" then afterLong.1.dropLast else afterLong.1
    | none => afterLong.1
  (afterLong.2, if cur ≠ [] then some (String.join cur) else none)

/-- The outer loop of `TextWrapper._wrap_chunks` (defaults: empty indents,
`drop_whitespace`, no `max_lines`), with explicit fuel; each real iteration
consumes at least one character or chunk, so the fuel chosen by `pyWrap`
never runs out for a positive width. -/
def wrapChunksLoop (width : Nat) : Nat → List String → List String → List String
  | 0, _, lines => lines
  | _ + 1, [], lines => lines
  | fuel + 1, ch :: chunks, lines =>
    let chunks0 := if pyStrip ch = "" ∧ lines ≠ [] then chunks else ch :: chunks
    match chunks0 with
    | [] => lines
    | c0 :: c0s =>
      let step := wrapIter width (c0 :: c0s)
      wrapChunksLoop width fuel step.1
        (match step.2 with
         | some ln => lines ++ [ln]
         | none => lines)

/-- `textwrap.wrap(text, width)` with default options. -/
def pyWrap (text : String) (width : Nat) : List String :=
  let munged := _munge_whitespace text.data
  let chunks := scanChunks [] munged
  wrapChunksLoop width (munged.length + chunks.length + 1) chunks []

/-- `LINE_WIDTH`: the character width of a screen line. -/
def LINE_WIDTH : Nat := 160

/-- Python `txt.split('\n')` (keeping empty parts). -/
def splitOnNl : List Char → List Char → List (List Char)
  | [], acc => [acc.reverse]
  | '\n' :: rest, acc => acc.reverse :: splitOnNl rest []
  | c :: rest, acc => splitOnNl rest (c :: acc)

/-- Python `txt.split('\n\n')` (keeping empty parts). -/
def splitOnNlNl : List Char → List Char → List (List Char)
  | [], acc => [acc.reverse]
  | '\n' :: '\n' :: rest, acc => acc.reverse :: splitOnNlNl rest []
  | c :: rest, acc => splitOnNlNl rest (c :: acc)

/-- `_count_screen_lines` from `nb_visualiser.py`: split on `'\n'`, wrap each
line, count all wrapped fragments. -/
def _count_screen_lines_nbv (txt : String) (width : Nat) : Nat :=
  (((splitOnNl txt.data []).map (fun l => pyWrap (String.mk l) width)).flatten).length

/-- `_count_screen_lines` from `notebook_profiler.py`: split on `'\n\n'`,
wrap each segment, count all wrapped fragments. -/
def _count_screen_lines_nbp (txt : String) (width : Nat) : Nat :=
  (((splitOnNlNl txt.data []).map (fun l => pyWrap (String.mk l) width)).flatten).length

/-!
### The Text-Flow Counter on blank input (C7)

`textwrap.wrap` drops whitespace-only content, so a block of blank lines
produces `0` wrapped fragments — not one per blank segment.
-/

/-- Unfolding equation for `expandTabsAux` at a non-tab head. -/
theorem expandTabsAux_cons (c : Char) (rest : List Char) (col : Nat)
    (h : ¬ c = '\t') :
    expandTabsAux (c :: rest) col =
      if c = '\n' || c = '\r' then c :: expandTabsAux rest 0
      else c :: expandTabsAux rest (col + 1) := by
  rw [expandTabsAux.eq_def]
  split
  · rename_i heq; simp at heq
  · rename_i heq
    injection heq with h1 h2
    exact (h h1).elim
  · rename_i c2 rest2 hne2 heq
    injection heq with h1 h2
    subst h1; subst h2
    rfl

/-- Tab expansion maps whitespace-only text to whitespace-only text. -/
theorem expandTabsAux_all_ws :
    ∀ l col, (∀ c ∈ l, twIsWS c = true) →
      ∀ c ∈ expandTabsAux l col, twIsWS c = true := by
  intro l col
  induction l, col using expandTabsAux.induct with
  | case1 _ => intro _ c hc; simp [expandTabsAux] at hc
  | case2 rest col ih =>
    intro hl c hc
    simp only [expandTabsAux, List.mem_append] at hc
    rcases hc with h | h
    · rw [List.eq_of_mem_replicate h]; rfl
    · exact ih (fun d hd => hl d (List.mem_cons_of_mem _ hd)) c h
  | case3 c' rest col hne hnl ih =>
    intro hl c hc
    rw [expandTabsAux_cons c' rest col (fun h => hne h), if_pos hnl] at hc
    rcases List.mem_cons.mp hc with h | h
    · subst h; exact hl c (List.mem_cons_self _ _)
    · exact ih (fun d hd => hl d (List.mem_cons_of_mem _ hd)) c h
  | case4 c' rest col hne hnl ih =>
    intro hl c hc
    rw [expandTabsAux_cons c' rest col (fun h => hne h), if_neg hnl] at hc
    rcases List.mem_cons.mp hc with h | h
    · subst h; exact hl c (List.mem_cons_self _ _)
    · exact ih (fun d hd => hl d (List.mem_cons_of_mem _ hd)) c h

/-- The munged form of whitespace-only text is all plain spaces. -/
theorem munge_all_space (l : List Char) (h : ∀ c ∈ l, twIsWS c = true) :
    ∀ c ∈ _munge_whitespace l, c = ' ' := by
  intro c hc
  simp only [_munge_whitespace, List.mem_map] at hc
  obtain ⟨a, ha, rfl⟩ := hc
  have := expandTabsAux_all_ws l 0 h a ha
  simp [this]

/-- Chunking an all-space text yields the text as a single whitespace chunk. -/
theorem scanChunksF_all_space (fuel : Nat) (pre : List Char) (text : List Char)
    (h : ∀ c ∈ text, c = ' ') (hne : text ≠ []) :
    scanChunksF (fuel + 1) pre text = [String.mk text] := by
  obtain ⟨c, rest, rfl⟩ := List.exists_cons_of_ne_nil hne
  have hc : c = ' ' := h c (List.mem_cons_self _ _)
  have hws : twIsWS c = true := by subst hc; rfl
  simp only [scanChunksF]
  rw [if_pos hws]
  have htake : (c :: rest).takeWhile twIsWS = c :: rest :=
    List.takeWhile_eq_self_iff.mpr (fun a ha => by rw [h a ha]; rfl)
  have hdrop : (c :: rest).dropWhile twIsWS = [] :=
    List.dropWhile_eq_nil_iff.mpr (fun a ha => by rw [h a ha]; rfl)
  rw [htake, hdrop]
  cases fuel <;> rfl

/-- Chunking an all-space text yields the text as a single whitespace chunk. -/
theorem scanChunks_all_space (pre : List Char) (text : List Char)
    (h : ∀ c ∈ text, c = ' ') (hne : text ≠ []) :
    scanChunks pre text = [String.mk text] :=
  scanChunksF_all_space text.length pre text h hne

/-- Stripping an all-space string yields the empty string. -/
theorem pyStrip_all_space (s : String) (h : ∀ c ∈ s.data, c = ' ') :
    pyStrip s = "" := by
  have hdrop : s.data.dropWhile pyIsSpace = [] :=
    List.dropWhile_eq_nil_iff.mpr (fun a ha => by rw [h a ha]; rfl)
  simp [pyStrip, stripList, hdrop]

/-- An iteration on a single all-space chunk emits no line, and what remains
is again at most a single all-space chunk. -/
theorem wrapIter_single_space (width : Nat) (s : String)
    (hs : ∀ c ∈ s.data, c = ' ') :
    (wrapIter width [s]).2 = none ∧
      ((wrapIter width [s]).1 = [] ∨
       ∃ s', (wrapIter width [s]).1 = [s'] ∧ ∀ c ∈ s'.data, c = ' ') := by
  by_cases hfit : 0 + s.length ≤ width
  · have hfill : lineFill width 0 [] [s] = ([] ++ [s], 0 + s.length, []) := by
      rw [lineFill, if_pos hfit, lineFill]
    simp only [wrapIter, hfill, List.nil_append, List.getLast?_singleton,
      pyStrip_all_space s hs, if_pos rfl, List.dropLast_single, ne_eq,
      not_true_eq_false, if_false]
    exact ⟨by simp, Or.inl (by simp)⟩
  · have hfill : lineFill width 0 [] [s] = ([], 0, [s]) := by
      rw [lineFill, if_neg hfit]
    have hlen : s.length > width := by omega
    have hfind : ∀ b, rfindDash s.data b = none := by
      intro b
      simp only [rfindDash]
      rw [show List.findIdx? (fun x => decide (x = '-')) (s.data.take b).reverse
            = none from ?_]
      · rfl
      · rw [List.findIdx?_eq_none_iff]
        intro a ha
        have : a = ' ' := hs a (List.mem_of_mem_take (List.mem_reverse.mp ha))
        simp [this]
    have hlong : _handle_long_word width 0 [] s.data [] =
        ([] ++ [String.mk (s.data.take (if width < 1 then 1 else width - 0))],
         [String.mk (s.data.drop (if width < 1 then 1 else width - 0))]) := by
      rw [_handle_long_word]
      by_cases hb : s.data.length > (if width < 1 then 1 else width - 0)
      · rw [if_pos hb, hfind]
      · rw [if_neg hb]
    have htake : ∀ c ∈ (String.mk (s.data.take
        (if width < 1 then 1 else width - 0))).data, c = ' ' :=
      fun c hc => hs c (List.mem_of_mem_take hc)
    simp only [wrapIter, hfill, hlen, if_pos, hlong, List.nil_append,
      List.getLast?_singleton, pyStrip_all_space _ htake, if_pos rfl,
      List.dropLast_single, ne_eq, not_true_eq_false, if_false]
    refine ⟨by simp, Or.inr ⟨String.mk (s.data.drop (if width < 1 then 1 else width - 0)), by simp, ?_⟩⟩
    exact fun c hc => hs c (List.mem_of_mem_drop hc)

/-- The greedy filler never emits a line from a single all-space chunk. -/
theorem wrapChunksLoop_single_space (width : Nat) :
    ∀ fuel (s : String), (∀ c ∈ s.data, c = ' ') →
      wrapChunksLoop width fuel [s] [] = [] := by
  intro fuel
  induction fuel with
  | zero => intro s _; rfl
  | succ fuel ih =>
    intro s hs
    obtain ⟨hnone, hrem⟩ := wrapIter_single_space width s hs
    rw [wrapChunksLoop]
    simp only [ne_eq, not_true_eq_false, and_false, if_false, hnone]
    rcases hrem with h | ⟨s', hs', hsp⟩
    · rw [h]
      cases fuel <;> rfl
    · rw [hs']
      exact ih s' hsp

/-- Whitespace-only text wraps to no lines at all. -/
theorem pyWrap_all_ws (s : String) (width : Nat)
    (h : ∀ c ∈ s.data, twIsWS c = true) : pyWrap s width = [] := by
  have hmunge : ∀ c ∈ _munge_whitespace s.data, c = ' ' := munge_all_space s.data h
  by_cases hne : _munge_whitespace s.data = []
  · simp only [pyWrap, scanChunks, hne]
    rfl
  · simp only [pyWrap, scanChunks, scanChunksF_all_space _ _ _ hmunge hne]
    exact wrapChunksLoop_single_space width _ _ hmunge

/-- Every character of every `split('\n')` segment comes from the input or
the accumulator. -/
theorem splitOnNl_chars (P : Char → Prop) :
    ∀ l acc, (∀ c ∈ l, P c) → (∀ c ∈ acc, P c) →
      ∀ seg ∈ splitOnNl l acc, ∀ c ∈ seg, P c := by
  intro l acc
  induction l, acc using splitOnNl.induct with
  | case1 acc =>
    intro _ hacc seg hseg c hc
    simp only [splitOnNl, List.mem_singleton] at hseg
    subst hseg
    exact hacc c (by simpa using hc)
  | case2 rest acc ih =>
    intro hl hacc seg hseg c hc
    simp only [splitOnNl, List.mem_cons] at hseg
    rcases hseg with h1 | h2
    · subst h1; exact hacc c (by simpa using hc)
    · exact ih (fun d hd => hl d (List.mem_cons_of_mem _ hd)) (by simp) seg h2 c hc
  | case3 x rest acc hx ih =>
    intro hl hacc seg hseg c hc
    rw [show splitOnNl (x :: rest) acc = splitOnNl rest (x :: acc) from by
      simp [splitOnNl, hx]] at hseg
    refine ih (fun d hd => hl d (List.mem_cons_of_mem _ hd)) ?_ seg hseg c hc
    intro d hd
    rcases List.mem_cons.mp hd with h | h
    · subst h; exact hl d (List.mem_cons_self _ _)
    · exact hacc d h

/-- Every character of every `split('\n\n')` segment comes from the input or
the accumulator. -/
theorem splitOnNlNl_chars (P : Char → Prop) :
    ∀ l acc, (∀ c ∈ l, P c) → (∀ c ∈ acc, P c) →
      ∀ seg ∈ splitOnNlNl l acc, ∀ c ∈ seg, P c := by
  intro l acc
  induction l, acc using splitOnNlNl.induct with
  | case1 acc =>
    intro _ hacc seg hseg c hc
    simp only [splitOnNlNl, List.mem_singleton] at hseg
    subst hseg
    exact hacc c (by simpa using hc)
  | case2 rest acc ih =>
    intro hl hacc seg hseg c hc
    simp only [splitOnNlNl, List.mem_cons] at hseg
    rcases hseg with h1 | h2
    · subst h1; exact hacc c (by simpa using hc)
    · refine ih (fun d hd => hl d ?_) (by simp) seg h2 c hc
      exact List.mem_cons_of_mem _ (List.mem_cons_of_mem _ hd)
  | case3 x rest acc hx ih =>
    intro hl hacc seg hseg c hc
    rw [show splitOnNlNl (x :: rest) acc = splitOnNlNl rest (x :: acc) from ?_] at hseg
    · refine ih (fun d hd => hl d (List.mem_cons_of_mem _ hd)) ?_ seg hseg c hc
      intro d hd
      rcases List.mem_cons.mp hd with h | h
      · subst h; exact hl d (List.mem_cons_self _ _)
      · exact hacc d h
    · rw [splitOnNlNl.eq_def]
      split
      · rename_i heq; simp at heq
      · rename_i r2 heq
        injection heq with h1 h2
        exact (hx r2 h1 h2).elim
      · rename_i c2 rest2 heq
        injection heq with h1 h2
        subst h1; subst h2
        rfl

/-- A list of empty lists flattens to the empty list. -/
theorem flatten_all_nil {α : Type} (L : List (List α))
    (h : ∀ x ∈ L, x = []) : L.flatten = [] := by
  induction L with
  | nil => rfl
  | cons a L ih =>
    rw [List.flatten_cons, h a (List.mem_cons_self _ _),
      ih (fun x hx => h x (List.mem_cons_of_mem _ hx))]
    rfl

/-- C7 (counterexample): a block consisting only of blank lines does NOT
yield a count equal to the number of blank segments between the newline
splits: `"\n"` has two blank `split('\n')` segments but counts as 0 screen
lines, and `"\n\n"` has two blank `split('\n\n')` segments but counts as 0. -/
theorem count_screen_lines_blank_counterexample :
    _count_screen_lines_nbv "\n" 160 = 0 ∧
    (splitOnNl "\n".data []).length = 2 ∧
    _count_screen_lines_nbp "\n\n" 160 = 0 ∧
    (splitOnNlNl "\n\n".data []).length = 2 ∧
    (0 : Nat) ≠ 2 := by decide

/-- C7 (amended): an empty block yields a screen-line count of zero, and the
count is never negative; a block consisting only of blank lines (whitespace
characters) also yields zero — whitespace-only segments produce no wrapped
fragments — for both `_count_screen_lines` variants and any width. -/
theorem count_screen_lines_blank_amended (txt : String) (width : Nat)
    (h : ∀ c ∈ txt.data, twIsWS c = true) :
    _count_screen_lines_nbv txt width = 0 ∧
    _count_screen_lines_nbp txt width = 0 ∧
    _count_screen_lines_nbv "" width = 0 ∧
    _count_screen_lines_nbp "" width = 0 ∧
    0 ≤ _count_screen_lines_nbv txt width := by
  have hnbv : ∀ (t : String), (∀ c ∈ t.data, twIsWS c = true) →
      _count_screen_lines_nbv t width = 0 := by
    intro t ht
    rw [_count_screen_lines_nbv]
    rw [flatten_all_nil _ ?_]
    · rfl
    · intro x hx
      simp only [List.mem_map] at hx
      obtain ⟨seg, hseg, rfl⟩ := hx
      exact pyWrap_all_ws _ width
        (splitOnNl_chars (fun c => twIsWS c = true) t.data [] ht (by simp) seg hseg)
  have hnbp : ∀ (t : String), (∀ c ∈ t.data, twIsWS c = true) →
      _count_screen_lines_nbp t width = 0 := by
    intro t ht
    rw [_count_screen_lines_nbp]
    rw [flatten_all_nil _ ?_]
    · rfl
    · intro x hx
      simp only [List.mem_map] at hx
      obtain ⟨seg, hseg, rfl⟩ := hx
      exact pyWrap_all_ws _ width
        (splitOnNlNl_chars (fun c => twIsWS c = true) t.data [] ht (by simp) seg hseg)
  exact ⟨hnbv txt h, hnbp txt h, hnbv "" (by simp), hnbp "" (by simp),
    Nat.zero_le _⟩

/-- Witness for C7's amended statement at a concrete blank block. -/
theorem count_screen_lines_blank_amended_witness :
    _count_screen_lines_nbv " \n\t\n " 160 = 0 ∧
    _count_screen_lines_nbp " \n\t\n " 160 = 0 ∧
    _count_screen_lines_nbv "" 160 = 0 ∧
    _count_screen_lines_nbp "" 160 = 0 ∧
    0 ≤ _count_screen_lines_nbv " \n\t\n " 160 :=
  count_screen_lines_blank_amended " \n\t\n " 160 (by decide)

/-!
## Layout Engine: adaptive gap sizing

Embeds `get_overall_length`, `get_gap` and the gap selection of `nb_vis` from
`nb_visualiser.py` (lines 36-59 and 82).  The `cell_map` argument is either a
single list of `(length, colour)` segments or a mapping from notebook name to
such a list; Python's float `0.01` is modelled as the rational `1/100`.
-/

/-- The `cell_map` input of `nb_vis`: one track, or a `dict` of tracks. -/
inductive CellMapIn where
  | single (m : List (Nat × String))
  | multi (m : List (String × List (Nat × String)))

/-- `get_overall_length(cell_map)`: accumulate the segment lengths. -/
def get_overall_length (cell_map : List (Nat × String)) : Nat :=
  cell_map.foldl (fun overall_len lt => overall_len + lt.1) 0

/-- `get_gap(cell_map)`: the largest overall track length (a running maximum
over the dict for a multi-notebook plot), times `0.01`, rounded up. -/
def get_gap (cell_map : CellMapIn) : Nat :=
  let max_overall_len : Nat :=
    match cell_map with
    | .multi m =>
      m.foldl (fun max_overall_len kv =>
        if get_overall_length kv.2 > max_overall_len then get_overall_length kv.2
        else max_overall_len) 0
    | .single m => get_overall_length m
  (⌈(max_overall_len : ℚ) * 0.01⌉).toNat

/-- The gap selection of `nb_vis`:
`gap = gap if gap is not None else get_gap(cell_map) * gap_boost`. -/
def nb_vis_gap (gap : Option Nat) (gap_boost : Nat) (cell_map : CellMapIn) : Nat :=
  match gap with
  | some g => g
  | none => get_gap cell_map * gap_boost

/-- Specification-side reading: the total length of one track. -/
def trackTotalLength (m : List (Nat × String)) : Nat :=
  (m.map Prod.fst).sum

/-- Specification-side reading: the largest total track length of a plan. -/
def maxTrackTotalLength : CellMapIn → Nat
  | .single m => trackTotalLength m
  | .multi ms => (ms.map (fun kv => trackTotalLength kv.2)).foldr max 0

/-- The accumulated overall length is the sum of the segment lengths. -/
theorem get_overall_length_eq (m : List (Nat × String)) :
    get_overall_length m = trackTotalLength m := by
  suffices h : ∀ (n : Nat), m.foldl (fun a (p : Nat × String) => a + p.1) n =
      n + (m.map Prod.fst).sum by
    simpa [get_overall_length, trackTotalLength] using h 0
  induction m with
  | nil => intro n; simp
  | cons p m ih => intro n; simp [ih]; omega

/-- The running maximum of `get_gap` equals the maximum of the track sums. -/
theorem get_gap_runmax (ms : List (String × List (Nat × String))) :
    ∀ n : Nat,
      ms.foldl (fun mx kv =>
        if get_overall_length kv.2 > mx then get_overall_length kv.2 else mx) n =
      max n ((ms.map (fun kv => trackTotalLength kv.2)).foldr max 0) := by
  induction ms with
  | nil => intro n; simp
  | cons kv ms ih =>
    intro n
    simp only [List.foldl_cons, List.map_cons, List.foldr_cons]
    rw [ih, get_overall_length_eq]
    split_ifs <;> omega

/-- C6: when the caller supplies no gap, `nb_vis` uses
`ceil(0.01 * max_track_total_length) * gap_boost`, where the maximum ranges
over all tracks of the plan (or is the single track's total); any explicit
caller-supplied gap — including `0` — is used unchanged. -/
theorem nb_vis_gap_formula (cell_map : CellMapIn) (gap_boost g : Nat) :
    nb_vis_gap (some g) gap_boost cell_map = g ∧
    nb_vis_gap none gap_boost cell_map =
      (⌈(maxTrackTotalLength cell_map : ℚ) * 0.01⌉).toNat * gap_boost ∧
    nb_vis_gap (some 0) gap_boost cell_map = 0 := by
  refine ⟨rfl, ?_, rfl⟩
  rcases cell_map with m | ms
  · simp only [nb_vis_gap, get_gap, maxTrackTotalLength, get_overall_length_eq]
  · have hmax : ms.foldl (fun mx kv =>
        if get_overall_length kv.2 > mx then get_overall_length kv.2 else mx) 0 =
        maxTrackTotalLength (.multi ms) := by
      rw [get_gap_runmax]
      simp [maxTrackTotalLength]
    simp only [nb_vis_gap, get_gap, hmax]

/-!
## Cell Normalizer and per-document metrics

Embeds `_nb_big_parse_nb` from `nb_visualiser.py` (lines 142-186).  The
filesystem (`os.path.isfile`), the notebook readers (`nbformat`/`jupytext`),
the `readtime` estimator and the `list_imports` parser are oracles; a failing
`list_imports.parse` call is swallowed by the code (`except: pass`), so its
oracle is total and a failure simply contributes no imports.
-/

/-- Python `s.rfind(c)`: index of the last occurrence, `-1` if absent. -/
def pyRFind (l : List Char) (c : Char) : Int :=
  match l.reverse.findIdx? (· = c) with
  | some j => ((l.length - 1 - j : Nat) : Int)
  | none => -1

/-- `os.path.splitext` for POSIX paths: split off the extension at the last
dot of the basename, unless the basename up to that dot is all dots. -/
def splitext (p : String) : String × String :=
  let l := p.data
  let sepIndex := pyRFind l '/'
  let dotIndex := pyRFind l '.'
  if dotIndex > sepIndex then
    let filenameIndex := (sepIndex + 1).toNat
    let dotN := dotIndex.toNat
    if ((l.drop filenameIndex).take (dotN - filenameIndex)).all (· = '.') then
      (p, "")
    else
      (String.mk (l.take dotN), String.mk (l.drop dotN))
  else
    (p, "")

/-- One cell of a parsed document. -/
structure Cell where
  cell_type : String
  source : String

/-- `VIS_COLOUR_MAP`. -/
def VIS_COLOUR_MAP : List (String × String) :=
  [("markdown", "cornflowerblue"), ("code", "pink"), ("raw", "orange")]

/-- The per-document record built by `_nb_big_parse_nb`'s cell loop. -/
structure NbReport where
  cell_map : List (Nat × String)
  imports : List String
  reading_time : ℚ

/-- One iteration of `_nb_big_parse_nb`'s cell loop: skip unknown cell types,
append a `(screen_lines, colour)` segment, collect imports from code cells
(lines starting with `!` or `%` removed first), and accumulate markdown
reading time with `rounding_override=True`. -/
def nbProcessStep (readtimeOf : String → ℚ) (importsOf : String → List String)
    (rounded_minutes : Bool) (acc : NbReport) (cell : Cell) : NbReport :=
  match VIS_COLOUR_MAP.lookup cell.cell_type with
  | none => acc
  | some colour =>
    let acc := { acc with
      cell_map := acc.cell_map ++
        [(_count_screen_lines_nbv cell.source LINE_WIDTH, colour)] }
    if cell.cell_type = "code" then
      let clean_code := ((splitOnNl cell.source.data []).map String.mk).filter
        (fun c => !(pyStartsWith c "!" || pyStartsWith c "%"))
      { acc with imports := acc.imports ++ (clean_code.map importsOf).flatten }
    else if cell.cell_type = "markdown" then
      { acc with reading_time := acc.reading_time +
          md_readtime readtimeOf cell.source true rounded_minutes }
    else acc

/-- The cell loop of `_nb_big_parse_nb`, including the final dedup of
imports (`list(set(...))`, modelled deterministically) and the one-off
minutes rounding of the document-level reading time. -/
def nbProcessCells (readtimeOf : String → ℚ) (importsOf : String → List String)
    (rounded_minutes : Bool) (cells : List Cell) : NbReport :=
  let r := cells.foldl (nbProcessStep readtimeOf importsOf rounded_minutes)
    { cell_map := [], imports := [], reading_time := 0 }
  { cell_map := r.cell_map
    imports := r.imports.eraseDups
    reading_time :=
      if rounded_minutes then ((⌈r.reading_time / 60⌉ : ℤ) : ℚ)
      else r.reading_time }

/-- The result `dict` of `_nb_big_parse_nb`: either the empty
`{'cell_map': {}, 'imports': {}, 'text_report': {}}` or a parsed document. -/
inductive ParseOut where
  | empty
  | parsed (cell_map : List (Nat × String)) (imports : List String)
      (reading_time : ℚ)
  deriving DecidableEq

/-- `_nb_big_parse_nb(fn, text_formats, raw)`: a raw in-memory notebook is
processed directly; otherwise the filename must be non-empty, carry a
supported extension and name an existing file, or the empty result is
returned. -/
def _nb_big_parse_nb (isFile : String → Bool) (readDoc : String → List Cell)
    (readtimeOf : String → ℚ) (importsOf : String → List String)
    (fn : String) (text_formats : Bool) (raw : Option (List Cell))
    (rounded_minutes : Bool) : ParseOut :=
  match raw with
  | some nb =>
    let r := nbProcessCells readtimeOf importsOf rounded_minutes nb
    ParseOut.parsed r.cell_map r.imports r.reading_time
  | none =>
    if fn ≠ "" then
      let fmts := [".ipynb"] ++ (if text_formats then [".md", ".Rmd", ".py"] else [])
      if ¬ fmts.contains (splitext fn).2 ∨ ¬ isFile fn then
        ParseOut.empty
      else
        let r := nbProcessCells readtimeOf importsOf rounded_minutes (readDoc fn)
        ParseOut.parsed r.cell_map r.imports r.reading_time
    else
      ParseOut.empty

/-- C4: an unsupported extension or a non-existent file yields the empty
result (and no error), and a raw in-memory notebook bypasses file-type
detection and file reading entirely — the result does not depend on the
filesystem or reader oracles. -/
theorem nb_big_parse_nb_empty_and_bypass
    (isFile isFile' : String → Bool) (readDoc readDoc' : String → List Cell)
    (readtimeOf : String → ℚ) (importsOf : String → List String)
    (fn : String) (text_formats rounded_minutes : Bool) (nb : List Cell) :
    ((([".ipynb"] ++ (if text_formats then [".md", ".Rmd", ".py"] else [])).contains
        (splitext fn).2 = false ∨ isFile fn = false) →
      _nb_big_parse_nb isFile readDoc readtimeOf importsOf fn text_formats none
        rounded_minutes = ParseOut.empty) ∧
    (_nb_big_parse_nb isFile readDoc readtimeOf importsOf fn text_formats
        (some nb) rounded_minutes =
      _nb_big_parse_nb isFile' readDoc' readtimeOf importsOf fn text_formats
        (some nb) rounded_minutes) := by
  refine ⟨fun h => ?_, rfl⟩
  simp only [_nb_big_parse_nb]
  by_cases hfn : fn = ""
  · rw [if_neg (by simp [hfn])]
  · rw [if_pos (by simpa using hfn), if_pos ?_]
    rcases h with h | h
    · exact Or.inl (by simp only [h]; simp)
    · exact Or.inr (by simp only [h]; simp)

/-- Witness for C4: a `.txt` filename yields the empty result even when the
filesystem says the file exists, and the raw path ignores the oracles. -/
theorem nb_big_parse_nb_empty_and_bypass_witness :
    _nb_big_parse_nb (fun _ => true) (fun _ => []) (fun _ => 0) (fun _ => [])
      "notes.txt" true none false = ParseOut.empty ∧
    _nb_big_parse_nb (fun _ => true) (fun _ => [⟨"code", "x = 1"⟩])
        (fun _ => 0) (fun _ => []) "" true
        (some [⟨"markdown", "hi"⟩]) false =
      _nb_big_parse_nb (fun _ => false) (fun _ => [])
        (fun _ => 0) (fun _ => []) "" true
        (some [⟨"markdown", "hi"⟩]) false := by
  constructor
  · exact (nb_big_parse_nb_empty_and_bypass (fun _ => true) (fun _ => true)
      (fun _ => []) (fun _ => []) (fun _ => 0) (fun _ => [])
      "notes.txt" true false []).1 (Or.inl (by decide))
  · exact (nb_big_parse_nb_empty_and_bypass (fun _ => true) (fun _ => false)
      (fun _ => [⟨"code", "x = 1"⟩]) (fun _ => [])
      (fun _ => 0) (fun _ => []) "" true false [⟨"markdown", "hi"⟩]).2

/-!
### Document-level reading time (C10)
-/

/-- Specification-side reading: the exact sum of the per-markdown-cell
reading-time seconds of a document. -/
def mdCellSeconds (readtimeOf : String → ℚ) (cells : List Cell) : ℚ :=
  ((cells.filter (fun c => c.cell_type = "markdown")).map
    (fun c => readtimeOf c.source)).sum

/-- A cell type with no colour entry is not markdown. -/
theorem lookup_none_not_markdown (t : String)
    (h : VIS_COLOUR_MAP.lookup t = none) : t ≠ "markdown" := by
  intro ht
  subst ht
  simp [VIS_COLOUR_MAP, List.lookup] at h

/-- The cell loop accumulates exactly the raw per-markdown-cell seconds on
top of the incoming total (every per-cell call passes
`rounding_override=True`, so no per-cell rounding happens). -/
theorem nbProcessStep_reading_time (readtimeOf : String → ℚ)
    (importsOf : String → List String) (rounded_minutes : Bool) :
    ∀ (cells : List Cell) (acc : NbReport),
      (cells.foldl (nbProcessStep readtimeOf importsOf rounded_minutes) acc).reading_time =
        acc.reading_time + mdCellSeconds readtimeOf cells := by
  intro cells
  induction cells with
  | nil => intro acc; simp [mdCellSeconds]
  | cons cell cells ih =>
    intro acc
    rw [List.foldl_cons, ih]
    rcases hl : VIS_COLOUR_MAP.lookup cell.cell_type with _ | colour
    · have hmd : ¬ cell.cell_type = "markdown" := lookup_none_not_markdown _ hl
      simp only [nbProcessStep, hl]
      simp [mdCellSeconds, hmd]
    · by_cases hcode : cell.cell_type = "code"
      · simp only [nbProcessStep, hl, if_pos hcode]
        have hmd : ¬ cell.cell_type = "markdown" := by rw [hcode]; simp
        simp [mdCellSeconds, hmd]
      · by_cases hmd : cell.cell_type = "markdown"
        · simp only [nbProcessStep, hl, if_neg hcode, if_pos hmd]
          simp only [md_readtime, Bool.not_true, Bool.false_and, if_false]
          simp [mdCellSeconds, hmd]
          ring
        · simp only [nbProcessStep, hl, if_neg hcode, if_neg hmd]
          simp [mdCellSeconds, hmd]

/-- C10: per-cell reading times are taken as raw seconds
(`rounding_override=True` forces `md_readtime` to ignore `rounded_minutes`),
summed over the document, and the minutes ceiling is applied exactly once to
the document-level sum when `rounded_minutes` is requested: the result is
`ceil(sum_of_cell_seconds / 60)`, not a sum of per-cell ceilings. -/
theorem document_reading_time_single_ceiling (readtimeOf : String → ℚ)
    (importsOf : String → List String) (cells : List Cell) :
    (∀ (md : String) (rm : Bool),
      md_readtime readtimeOf md true rm = readtimeOf md) ∧
    (nbProcessCells readtimeOf importsOf true cells).reading_time =
      ((⌈mdCellSeconds readtimeOf cells / 60⌉ : ℤ) : ℚ) ∧
    (nbProcessCells readtimeOf importsOf false cells).reading_time =
      mdCellSeconds readtimeOf cells := by
  refine ⟨fun md rm => by simp [md_readtime], ?_, ?_⟩
  · simp [nbProcessCells, nbProcessStep_reading_time]
  · simp [nbProcessCells, nbProcessStep_reading_time]

/-!
## Corpus Walker: directory exclusion

Embeds the exclusion logic of `_dir_walker` (`nb_visualiser.py` lines
188-218) and `nb_multidir_profiler` (`notebook_profiler.py` lines 895-920).
File enumeration (`Path.rglob`, `os.walk`) is external: `_dir_walker` is
given the list of matched files as their `Path.parts` component lists, and
`nb_multidir_profiler` the `os.walk` entries `(dirpath, files)`.  Per-file
profiling is an oracle.
-/

/-- The default exclusion set used by both walkers. -/
def exclude_default : List String :=
  [".ipynb_checkpoints", ".git", ".ipynb", "__MACOSX"]

/-- Python `bool(set(a).intersection(set(b)))`. -/
def hasIntersection (a b : List String) : Bool :=
  a.any (fun x => b.contains x)

/-- Python `s.endswith(p)`. -/
def pyEndsWith (s p : String) : Bool :=
  p.data.isSuffixOf s.data

/-- Python `path.split('/')`. -/
def splitOnSlash : List Char → List Char → List (List Char)
  | [], acc => [acc.reverse]
  | '/' :: rest, acc => acc.reverse :: splitOnSlash rest []
  | c :: rest, acc => splitOnSlash rest (c :: acc)

/-- `os.path.join(a, b)` for POSIX paths. -/
def pyJoin (a b : String) : String :=
  if pyStartsWith b "/" then b
  else if a = "" ∨ pyEndsWith a "/" then a ++ b
  else a ++ "/" ++ b

/-- The three per-notebook report `dict`s accumulated by `_dir_walker`. -/
structure DirWalkMaps where
  cell_map : List (List String × List (Nat × String))
  imports : List (List String × List String)
  text_report : List (List String × ℚ)

/-- The body of `_dir_walker`'s file loop: a file is profiled only when the
exclusion set does not meet its path components (`fn.parts`); a profiled
file's results are added to each report `dict` whose value is truthy (the
`text_report` dict always is, once the file parses). -/
def _dir_walker (parse : List String → ParseOut) (exclude_paths : List String)
    (files : List (List String)) : DirWalkMaps :=
  files.foldl (fun maps fn =>
    if !(hasIntersection exclude_paths fn) then
      match parse fn with
      | ParseOut.empty => maps
      | ParseOut.parsed cm im rt =>
        { cell_map := if cm ≠ [] then maps.cell_map ++ [(fn, cm)] else maps.cell_map
          imports := if im ≠ [] then maps.imports ++ [(fn, im)] else maps.imports
          text_report := maps.text_report ++ [(fn, rt)] }
    else maps)
    { cell_map := [], imports := [], text_report := [] }

/-- The files that `nb_multidir_profiler` profiles: for each `os.walk` entry
`(dirpath, files)`, the directory passes when the exclusion set does not meet
`dirpath.split('/')`, and each of its files with an `.ipynb`-suffixed joined
path is then profiled. -/
def nb_multidir_included (exclude_paths : List String)
    (walk : List (String × List String)) : List (String × String) :=
  walk.foldl (fun acc entry =>
    if !(hasIntersection exclude_paths
          ((splitOnSlash entry.1.data []).map String.mk)) then
      acc ++ (entry.2.filter
        (fun f => pyEndsWith (pyJoin entry.1 f) ".ipynb")).map
        (fun f => (entry.1, f))
    else acc) []

/-- C5 (counterexample): under the default exclusion set,
`nb_multidir_profiler` still profiles a file literally named `.ipynb` in a
non-excluded directory, although the intersection of the exclusion set with
that file's path components (`["d", ".ipynb"]`) is non-empty — the claim
that both walkers skip on the file's own path components fails. -/
theorem nb_multidir_excluded_name_counterexample :
    nb_multidir_included exclude_default [("d", [".ipynb"])] = [("d", ".ipynb")] ∧
    hasIntersection exclude_default
      ((splitOnSlash ("d/.ipynb").data []).map String.mk) = true := by decide

/-- No key added by `_dir_walker` meets the exclusion set. -/
theorem dir_walker_excludes (parse : List String → ParseOut)
    (exclude_paths : List String) (files : List (List String))
    (fn : List String) (h : hasIntersection exclude_paths fn = true) :
    fn ∉ (_dir_walker parse exclude_paths files).cell_map.map Prod.fst ∧
    fn ∉ (_dir_walker parse exclude_paths files).imports.map Prod.fst ∧
    fn ∉ (_dir_walker parse exclude_paths files).text_report.map Prod.fst := by
  rw [_dir_walker]
  suffices hgen : ∀ (maps : DirWalkMaps),
      fn ∉ maps.cell_map.map Prod.fst →
      fn ∉ maps.imports.map Prod.fst →
      fn ∉ maps.text_report.map Prod.fst →
      fn ∉ (files.foldl _ maps).cell_map.map Prod.fst ∧
      fn ∉ (files.foldl _ maps).imports.map Prod.fst ∧
      fn ∉ (files.foldl _ maps).text_report.map Prod.fst by
    exact hgen _ (by simp) (by simp) (by simp)
  induction files with
  | nil => intro maps h1 h2 h3; exact ⟨h1, h2, h3⟩
  | cons g files ih =>
    intro maps h1 h2 h3
    simp only [List.foldl_cons]
    by_cases hg : hasIntersection exclude_paths g = true
    · rw [if_neg (by simp [hg])]
      exact ih maps h1 h2 h3
    · have hne : fn ≠ g := fun he => hg (he ▸ h)
      rw [if_pos (by simp [hg])]
      rcases parse g with _ | ⟨cm, im, rt⟩
      · exact ih maps h1 h2 h3
      · refine ih _ ?_ ?_ ?_
        · by_cases hcm : cm = [] <;> simp [hcm, h1, hne]
        · by_cases him : im = [] <;> simp [him, h2, hne]
        · simp [h3, hne]

/-- No file profiled by `nb_multidir_profiler` lies in a directory whose
path components meet the exclusion set. -/
theorem nb_multidir_excludes (exclude_paths : List String)
    (walk : List (String × List String)) (d f : String)
    (h : hasIntersection exclude_paths
      ((splitOnSlash d.data []).map String.mk) = true) :
    (d, f) ∉ nb_multidir_included exclude_paths walk := by
  rw [nb_multidir_included]
  suffices hgen : ∀ (acc : List (String × String)), (d, f) ∉ acc →
      (d, f) ∉ walk.foldl _ acc by
    exact hgen [] (by simp)
  induction walk with
  | nil => intro acc h1; exact h1
  | cons entry walk ih =>
    intro acc h1
    simp only [List.foldl_cons]
    by_cases he : hasIntersection exclude_paths
        ((splitOnSlash entry.1.data []).map String.mk) = true
    · rw [if_neg (by simp [he])]
      exact ih acc h1
    · have hne : entry.1 ≠ d := fun hd => he (hd ▸ h)
      rw [if_pos (by simp [he])]
      refine ih _ ?_
      intro hmem
      rcases List.mem_append.mp hmem with hm | hm
      · exact h1 hm
      · obtain ⟨g, _, hg⟩ := List.mem_map.mp hm
        exact hne (congrArg Prod.fst hg)

/-- C5 (amended): `_dir_walker` skips a file whenever the exclusion set meets
the file's full path components (filename included), so such a file reaches
no report dict; `nb_multidir_profiler` checks only the directory components
of the walked path, so a file under an excluded directory contributes to no
report at any nesting depth, but a file whose own name is in the exclusion
set can still be profiled (see the counterexample). -/
theorem walkers_excluded_paths (parse : List String → ParseOut)
    (exclude_paths : List String) (files : List (List String))
    (walk : List (String × List String)) (fn : List String) (d f : String)
    (hfn : hasIntersection exclude_paths fn = true)
    (hd : hasIntersection exclude_paths
      ((splitOnSlash d.data []).map String.mk) = true) :
    (fn ∉ (_dir_walker parse exclude_paths files).cell_map.map Prod.fst ∧
     fn ∉ (_dir_walker parse exclude_paths files).imports.map Prod.fst ∧
     fn ∉ (_dir_walker parse exclude_paths files).text_report.map Prod.fst) ∧
    (d, f) ∉ nb_multidir_included exclude_paths walk :=
  ⟨dir_walker_excludes parse exclude_paths files fn hfn,
   nb_multidir_excludes exclude_paths walk d f hd⟩

/-- Witness for C5's amended statement: a notebook under `.git`, and a
directory `a/.git/b`, are excluded by the respective walkers. -/
theorem walkers_excluded_paths_witness :
    (["a", ".git", "n.ipynb"] ∉
        (_dir_walker (fun _ => ParseOut.parsed [(1, "pink")] ["os"] 0)
          exclude_default
          [["a", ".git", "n.ipynb"], ["a", "m.ipynb"]]).cell_map.map Prod.fst ∧
     ["a", ".git", "n.ipynb"] ∉
        (_dir_walker (fun _ => ParseOut.parsed [(1, "pink")] ["os"] 0)
          exclude_default
          [["a", ".git", "n.ipynb"], ["a", "m.ipynb"]]).imports.map Prod.fst ∧
     ["a", ".git", "n.ipynb"] ∉
        (_dir_walker (fun _ => ParseOut.parsed [(1, "pink")] ["os"] 0)
          exclude_default
          [["a", ".git", "n.ipynb"], ["a", "m.ipynb"]]).text_report.map Prod.fst) ∧
    ("a/.git/b", "n.ipynb") ∉
      nb_multidir_included exclude_default
        [("a", ["m.ipynb"]), ("a/.git/b", ["n.ipynb"])] :=
  walkers_excluded_paths (fun _ => ParseOut.parsed [(1, "pink")] ["os"] 0)
    exclude_default [["a", ".git", "n.ipynb"], ["a", "m.ipynb"]]
    [("a", ["m.ipynb"]), ("a/.git/b", ["n.ipynb"])]
    ["a", ".git", "n.ipynb"] "a/.git/b" "n.ipynb" (by decide) (by decide)

/-!
## Report Renderer

Embeds `report_template_full` (`notebook_profiler.py` lines 1301-1310) and
`reporter` (lines 1339-1345).  A template is its sequence of literal pieces
and named placeholders; `template.format(**record)` is `pyFormat`, whose
`Except.error` models the `KeyError` Python raises for a placeholder missing
from the record; the aggregate feedstock is a `dict` of per-directory
records.
-/

/-- One piece of a `str.format` template. -/
inductive TmplPiece where
  | lit (s : String)
  | field (name : String)
  deriving DecidableEq

/-- Whether a needle occurs inside a haystack (Python `needle in haystack`). -/
def listInfix (needle : List Char) : List Char → Bool
  | [] => needle.isEmpty
  | c :: rest => needle.isPrefixOf (c :: rest) || listInfix needle rest

/-- Python `needle in haystack` on strings. -/
def pyInStr (needle haystack : String) : Bool :=
  listInfix needle.data haystack.data

/-- `report_template_full`, as its literal pieces and named placeholders. -/
def report_template_full : List TmplPiece :=
  [.lit "\nIn directory `", .field "path", .lit "` there were ",
   .field "nb_count",
   .lit " notebooks.\n\n- total markdown wordcount ", .field "n_words",
   .lit " words across ", .field "n_md_cells",
   .lit " markdown cells\n- total code line count of ",
   .field "n_total_code_lines", .lit " lines of code across ",
   .field "n_code_cells", .lit " code cells\n  - ", .field "n_code_lines",
   .lit " code lines, ", .field "n_single_line_comment_code_lines",
   .lit " comment lines and ", .field "n_blank_code_lines",
   .lit " blank lines\n\nEstimated total reading time of ",
   .field "reading_time_mins", .lit " minutes.\n\n"]

/-- `template.format(**record)`: substitute each placeholder from the record,
raising (`Except.error`) on the first placeholder absent from it. -/
def pyFormat (record : List (String × String)) : List TmplPiece → Except String String
  | [] => Except.ok ""
  | .lit s :: rest => (pyFormat record rest).map (fun t => s ++ t)
  | .field f :: rest =>
    match record.lookup f with
    | some v => (pyFormat record rest).map (fun t => v ++ t)
    | none => Except.error f

/-- The placeholder names a template declares, in order. -/
def templateFields (tmpl : List TmplPiece) : List String :=
  tmpl.filterMap (fun p => match p with | .field f => some f | .lit _ => none)

/-- `reporter(df, template, path_filter)`: format every feedstock entry whose
directory key contains the path filter, concatenating the rendered reports;
a formatting error propagates to the caller. -/
def reporter (template : List TmplPiece) (path_filter : String) :
    List (String × List (String × String)) → Except String String
  | [] => Except.ok ""
  | (d, record) :: rest =>
    if pyInStr path_filter d then
      match pyFormat record template with
      | Except.error e => Except.error e
      | Except.ok txt =>
        (reporter template path_filter rest).map
          (fun restTxt => "\n\n" ++ txt ++ restTxt)
    else
      reporter template path_filter rest

/-- Mapping over an `Except` does not change whether it is `ok`. -/
theorem except_map_isOk {ε α β : Type} (g : α → β) (e : Except ε α) :
    (e.map g).isOk = e.isOk := by
  cases e <;> rfl

/-- The fields of a template starting with a literal. -/
theorem templateFields_cons_lit (s : String) (rest : List TmplPiece) :
    templateFields (.lit s :: rest) = templateFields rest := rfl

/-- The fields of a template starting with a placeholder. -/
theorem templateFields_cons_field (f : String) (rest : List TmplPiece) :
    templateFields (.field f :: rest) = f :: templateFields rest := rfl

/-- Formatting succeeds exactly when every declared field is present. -/
theorem pyFormat_isOk_iff (record : List (String × String)) :
    ∀ template, (pyFormat record template).isOk = true ↔
      ∀ f ∈ templateFields template, (record.lookup f).isSome := by
  intro template
  induction template with
  | nil =>
    constructor
    · intro _ f hf; simp [templateFields] at hf
    · intro _; rfl
  | cons p rest ih =>
    rcases p with s | f
    · rw [show pyFormat record (.lit s :: rest) =
          (pyFormat record rest).map (fun t => s ++ t) from rfl,
        except_map_isOk, templateFields_cons_lit]
      exact ih
    · rcases hf : record.lookup f with _ | v
      · rw [show pyFormat record (.field f :: rest) = Except.error f from by
          rw [pyFormat, hf]]
        constructor
        · intro h; cases h
        · intro h
          have := h f (by rw [templateFields_cons_field]; exact List.mem_cons_self _ _)
          rw [hf] at this
          cases this
      · rw [show pyFormat record (.field f :: rest) =
            (pyFormat record rest).map (fun t => v ++ t) from by
            rw [pyFormat, hf],
          except_map_isOk, templateFields_cons_field]
        constructor
        · intro h g hg
          rcases List.mem_cons.mp hg with rfl | hg'
          · rw [hf]; rfl
          · exact ih.mp h g hg'
        · intro h
          exact ih.mpr (fun g hg => h g (List.mem_cons_of_mem _ hg))

/-- Formatting consults only the declared fields: records that agree on them
render identically. -/
theorem pyFormat_congr (record record' : List (String × String)) :
    ∀ template,
      (∀ f ∈ templateFields template, record.lookup f = record'.lookup f) →
      pyFormat record template = pyFormat record' template := by
  intro template
  induction template with
  | nil => intro _; rfl
  | cons p rest ih =>
    intro hagree
    rcases p with s | f
    · simp only [pyFormat]
      rw [ih (fun f hf => hagree f (by rw [templateFields_cons_lit]; exact hf))]
    · have hl : record.lookup f = record'.lookup f :=
        hagree f (by rw [templateFields_cons_field]; exact List.mem_cons_self _ _)
      simp only [pyFormat, hl]
      rcases record'.lookup f with _ | v
      · rfl
      · rw [ih (fun g hg => hagree g
          (by rw [templateFields_cons_field]; exact List.mem_cons_of_mem _ hg))]

/-- A matching feedstock entry with a missing declared field makes the whole
report fail. -/
theorem reporter_error_of_missing (template : List TmplPiece)
    (path_filter : String) :
    ∀ (feedstock : List (String × List (String × String))) (d : String)
      (record' : List (String × String)),
      (d, record') ∈ feedstock → pyInStr path_filter d = true →
      (∃ f ∈ templateFields template, record'.lookup f = none) →
      (reporter template path_filter feedstock).isOk = false := by
  intro feedstock
  induction feedstock with
  | nil => intro d record' hmem; simp at hmem
  | cons entry rest ih =>
    rcases entry with ⟨d0, record0⟩
    intro d record' hmem hfilt hmissing
    rcases List.mem_cons.mp hmem with he | he
    · obtain ⟨rfl, rfl⟩ : d0 = d ∧ record0 = record' := by
        injection he.symm with h1 h2; exact ⟨h1, h2⟩
      rcases hfmt : pyFormat record0 template with e | txt
      · rw [reporter, if_pos hfilt, hfmt]
        rfl
      · obtain ⟨f, hf, hnone⟩ := hmissing
        have hok : (pyFormat record0 template).isOk = true := by
          rw [hfmt]; rfl
        have := (pyFormat_isOk_iff record0 template).mp hok f hf
        rw [hnone] at this
        cases this
    · by_cases hfilt0 : pyInStr path_filter d0 = true
      · rcases hfmt : pyFormat record0 template with e | txt
        · rw [reporter, if_pos hfilt0, hfmt]
          rfl
        · have hrest := ih d record' he hfilt hmissing
          rw [reporter, if_pos hfilt0, hfmt]
          rcases hrep : reporter template path_filter rest with e2 | t2
          · rfl
          · rw [hrep] at hrest
            cases hrest
      · rw [reporter, if_neg (by simpa using hfilt0)]
        exact ih d record' he hfilt hmissing

/-- C9: the renderer substitutes exactly the template's declared fields
(success holds iff all declared fields are present, and only those fields are
consulted), and a feedstock record missing a declared field makes `reporter`
fail with an error rather than silently blanking the field;
`report_template_full` declares exactly its ten documented fields. -/
theorem reporter_template_contract (template : List TmplPiece)
    (record record' : List (String × String)) (path_filter : String)
    (feedstock : List (String × List (String × String))) :
    ((pyFormat record template).isOk = true ↔
      ∀ f ∈ templateFields template, (record.lookup f).isSome) ∧
    ((∀ f ∈ templateFields template, record.lookup f = record'.lookup f) →
      pyFormat record template = pyFormat record' template) ∧
    (∀ d rec0, (d, rec0) ∈ feedstock → pyInStr path_filter d = true →
      (∃ f ∈ templateFields template, rec0.lookup f = none) →
      (reporter template path_filter feedstock).isOk = false) ∧
    templateFields report_template_full =
      ["path", "nb_count", "n_words", "n_md_cells", "n_total_code_lines",
       "n_code_cells", "n_code_lines", "n_single_line_comment_code_lines",
       "n_blank_code_lines", "reading_time_mins"] :=
  ⟨pyFormat_isOk_iff record template,
   pyFormat_congr record record' template,
   fun d rec0 => reporter_error_of_missing template path_filter feedstock d rec0,
   by decide⟩

/-- Witness for C9: a feedstock record missing `reading_time_mins` makes the
full-template report fail. -/
theorem reporter_template_contract_witness :
    (reporter report_template_full ""
      [("dir", [("path", "dir"), ("nb_count", "1"), ("n_words", "10"),
                ("n_md_cells", "1"), ("n_total_code_lines", "2"),
                ("n_code_cells", "1"), ("n_code_lines", "1"),
                ("n_single_line_comment_code_lines", "1"),
                ("n_blank_code_lines", "0")])]).isOk = false :=
  (reporter_template_contract report_template_full [] [] ""
      [("dir", [("path", "dir"), ("nb_count", "1"), ("n_words", "10"),
                ("n_md_cells", "1"), ("n_total_code_lines", "2"),
                ("n_code_cells", "1"), ("n_code_lines", "1"),
                ("n_single_line_comment_code_lines", "1"),
                ("n_blank_code_lines", "0")])]).2.2.1 "dir"
    [("path", "dir"), ("nb_count", "1"), ("n_words", "10"),
     ("n_md_cells", "1"), ("n_total_code_lines", "2"),
     ("n_code_cells", "1"), ("n_code_lines", "1"),
     ("n_single_line_comment_code_lines", "1"),
     ("n_blank_code_lines", "0")]
    (by simp) (by decide) ⟨"reading_time_mins", by decide, by decide⟩

/-!
### Monotonicity of the Text-Flow Counter under concatenation (C8)

Concatenation merges the last segment of the first block with the first
segment of the second; the greedy wrapper can then pack the merged word
run better than it packed the second block alone (the hyphen-aware
long-word break wastes most of a line on `"c-"` in the second block), so
plain concatenation is NOT monotonic.  It is monotonic — in fact exactly
additive — when the two blocks are joined at a split boundary.
-/

/-- Unfolding equation for `splitOnNl` at a non-newline head. -/
theorem splitOnNl_cons_ne (c : Char) (M acc : List Char) (h : ¬ c = '\n') :
    splitOnNl (c :: M) acc = splitOnNl M (c :: acc) := by
  rw [splitOnNl.eq_def]
  split
  · rename_i heq; simp at heq
  · rename_i heq
    injection heq with h1 h2
    exact (h h1).elim
  · rename_i c2 rest2 heq
    injection heq with h1 h2
    subst h1; subst h2
    rfl

/-- Unfolding equation for `splitOnNlNl` when the two-newline pattern does
not apply at the head. -/
theorem splitOnNlNl_cons_generic (c : Char) (M acc : List Char)
    (h : ∀ r, c = '\n' → M = '\n' :: r → False) :
    splitOnNlNl (c :: M) acc = splitOnNlNl M (c :: acc) := by
  rw [splitOnNlNl.eq_def]
  split
  · rename_i heq; simp at heq
  · rename_i r2 heq
    injection heq with h1 h2
    exact (h r2 h1 h2).elim
  · rename_i c2 rest2 heq
    injection heq with h1 h2
    subst h1; subst h2
    rfl

/-- Splitting on `'\n'` distributes over concatenation at a newline. -/
theorem splitOnNl_append (l2 : List Char) :
    ∀ l1 acc, splitOnNl (l1 ++ '\n' :: l2) acc =
      splitOnNl l1 acc ++ splitOnNl l2 [] := by
  intro l1 acc
  induction l1, acc using splitOnNl.induct with
  | case1 acc => simp [splitOnNl]
  | case2 rest acc ih =>
    rw [List.cons_append,
      show splitOnNl ('\n' :: (rest ++ '\n' :: l2)) acc =
        acc.reverse :: splitOnNl (rest ++ '\n' :: l2) [] from rfl,
      ih,
      show splitOnNl ('\n' :: rest) acc =
        acc.reverse :: splitOnNl rest [] from rfl,
      List.cons_append]
  | case3 c rest acc hc ih =>
    rw [List.cons_append, splitOnNl_cons_ne c _ acc (fun h => hc h), ih,
      splitOnNl_cons_ne c rest acc (fun h => hc h)]

/-- Splitting on `"\n\n"` distributes over concatenation at a blank line,
provided the first block does not itself end with a newline. -/
theorem splitOnNlNl_append (l2 : List Char) :
    ∀ l1 acc, l1.getLast? ≠ some '\n' →
      splitOnNlNl (l1 ++ '\n' :: '\n' :: l2) acc =
        splitOnNlNl l1 acc ++ splitOnNlNl l2 [] := by
  intro l1 acc
  induction l1, acc using splitOnNlNl.induct with
  | case1 acc => intro _; simp [splitOnNlNl]
  | case2 rest acc ih =>
    intro h
    have hrest : rest ≠ [] := by
      rintro rfl
      simp at h
    have hlast : rest.getLast? ≠ some '\n' := by
      obtain ⟨r1, rest', rfl⟩ := List.exists_cons_of_ne_nil hrest
      rwa [List.getLast?_cons_cons, List.getLast?_cons_cons] at h
    rw [List.cons_append, List.cons_append,
      show splitOnNlNl ('\n' :: '\n' :: (rest ++ '\n' :: '\n' :: l2)) acc =
        acc.reverse :: splitOnNlNl (rest ++ '\n' :: '\n' :: l2) [] from rfl,
      ih hlast,
      show splitOnNlNl ('\n' :: '\n' :: rest) acc =
        acc.reverse :: splitOnNlNl rest [] from rfl,
      List.cons_append]
  | case3 c rest acc hx ih =>
    intro h
    have hne_pat : ∀ r, c = '\n' → rest ++ '\n' :: '\n' :: l2 = '\n' :: r → False := by
      intro r hc hM
      rcases rest with _ | ⟨r1, rest'⟩
      · subst hc; simp at h
      · rw [List.cons_append] at hM
        injection hM with h1 h2
        exact hx rest' hc (by rw [h1])
    have hlast : rest.getLast? ≠ some '\n' := by
      rcases rest with _ | ⟨r1, rest'⟩
      · simp
      · rwa [List.getLast?_cons_cons] at h
    rw [List.cons_append, splitOnNlNl_cons_generic c _ acc hne_pat, ih hlast,
      splitOnNlNl_cons_generic c rest acc hx]

set_option maxRecDepth 100000 in
set_option maxHeartbeats 4000000 in
/-- C8 (counterexample): at the default width of 160, concatenating the
non-empty blocks `A = "b" * 157` and `B = "c-" + "a" * 161` yields FEWER
screen lines than `B` alone (2 against 3), for both `_count_screen_lines`
variants: wrapping `B` alone breaks its long word just after the hyphen of
`"c-"` and wastes most of the first line, while in `A ++ B` the word-chunk
boundary after `"...bc-"` lets the first line fill completely. -/
theorem count_screen_lines_not_concat_monotonic :
    String.mk (List.replicate 157 'b') ≠ "" ∧
    ("c-" ++ String.mk (List.replicate 161 'a')) ≠ "" ∧
    _count_screen_lines_nbv
        (String.mk (List.replicate 157 'b') ++
          ("c-" ++ String.mk (List.replicate 161 'a'))) 160 <
      _count_screen_lines_nbv ("c-" ++ String.mk (List.replicate 161 'a')) 160 ∧
    _count_screen_lines_nbp
        (String.mk (List.replicate 157 'b') ++
          ("c-" ++ String.mk (List.replicate 161 'a'))) 160 <
      _count_screen_lines_nbp ("c-" ++ String.mk (List.replicate 161 'a')) 160 := by
  decide

/-- C8 (amended): the Text-Flow Counter is additive — hence monotonic — when
two blocks are concatenated at a split boundary: joining with `"\n"` for the
newline-splitting counter (unconditionally), and with `"\n\n"` for the
paragraph-splitting counter when the first block does not end in a newline;
plain concatenation can merge the seam segments and lower the count below
one side's (see the counterexample). -/
theorem count_screen_lines_boundary_monotonic (A B : String) (width : Nat) :
    (_count_screen_lines_nbv (A ++ "\n" ++ B) width =
       _count_screen_lines_nbv A width + _count_screen_lines_nbv B width ∧
     _count_screen_lines_nbv A width ≤
       _count_screen_lines_nbv (A ++ "\n" ++ B) width ∧
     _count_screen_lines_nbv B width ≤
       _count_screen_lines_nbv (A ++ "\n" ++ B) width) ∧
    (A.data.getLast? ≠ some '\n' →
      _count_screen_lines_nbp (A ++ "\n\n" ++ B) width =
        _count_screen_lines_nbp A width + _count_screen_lines_nbp B width ∧
      _count_screen_lines_nbp A width ≤
        _count_screen_lines_nbp (A ++ "\n\n" ++ B) width ∧
      _count_screen_lines_nbp B width ≤
        _count_screen_lines_nbp (A ++ "\n\n" ++ B) width) := by
  have hdata1 : (A ++ "\n" ++ B).data = A.data ++ '\n' :: B.data := by
    simp [String.data_append]
  have hdata2 : (A ++ "\n\n" ++ B).data = A.data ++ '\n' :: '\n' :: B.data := by
    simp [String.data_append]
  have h1 : _count_screen_lines_nbv (A ++ "\n" ++ B) width =
      _count_screen_lines_nbv A width + _count_screen_lines_nbv B width := by
    simp only [_count_screen_lines_nbv, hdata1, splitOnNl_append,
      List.map_append, List.flatten_append, List.length_append]
  refine ⟨⟨h1, by omega, by omega⟩, fun hA => ?_⟩
  have h2 : _count_screen_lines_nbp (A ++ "\n\n" ++ B) width =
      _count_screen_lines_nbp A width + _count_screen_lines_nbp B width := by
    simp only [_count_screen_lines_nbp, hdata2, splitOnNlNl_append _ _ _ hA,
      List.map_append, List.flatten_append, List.length_append]
  exact ⟨h2, by omega, by omega⟩

/-- Witness for C8's amended statement at two concrete one-line blocks, with
the no-trailing-newline proviso of the paragraph counter discharged. -/
theorem count_screen_lines_boundary_monotonic_witness :
    (_count_screen_lines_nbv ("hello" ++ "\n" ++ "world") 160 =
       _count_screen_lines_nbv "hello" 160 + _count_screen_lines_nbv "world" 160 ∧
     _count_screen_lines_nbv "hello" 160 ≤
       _count_screen_lines_nbv ("hello" ++ "\n" ++ "world") 160 ∧
     _count_screen_lines_nbv "world" 160 ≤
       _count_screen_lines_nbv ("hello" ++ "\n" ++ "world") 160) ∧
    (_count_screen_lines_nbp ("hello" ++ "\n\n" ++ "world") 160 =
       _count_screen_lines_nbp "hello" 160 + _count_screen_lines_nbp "world" 160 ∧
     _count_screen_lines_nbp "hello" 160 ≤
       _count_screen_lines_nbp ("hello" ++ "\n\n" ++ "world") 160 ∧
     _count_screen_lines_nbp "world" 160 ≤
       _count_screen_lines_nbp ("hello" ++ "\n\n" ++ "world") 160) :=
  ⟨(count_screen_lines_boundary_monotonic "hello" "world" 160).1,
   (count_screen_lines_boundary_monotonic "hello" "world" 160).2 (by decide)⟩

end NbQuality
